import Mathlib

/-!
Shallow embedding of the cpp-parser repository: `src/tokenize.cpp` (the
`tokenize` function and its token data model) and `src/parser.cpp` (the
recursive-descent `Parser` class).  Each Lean definition mirrors the
corresponding C++ function; the parser's index-based cursor is modelled by
passing the remaining suffix of the token list, and the tokenizer's while
loop is modelled by a fuel-indexed structural recursion (the fuel equals the
number of remaining characters plus one, which is sufficient because every
loop iteration consumes at least one character).
-/

/-- TokenType enumeration from src/tokenize.cpp. -/
inductive TokenType where
  | T_FUNCTION | T_INT | T_FLOAT | T_STRING | T_BOOL | T_RETURN
  | T_IF | T_ELSE | T_FOR | T_WHILE | T_BREAK | T_CONTINUE
  | T_IDENTIFIER | T_INTLIT | T_FLOATLIT | T_STRINGLIT | T_BOOLLIT
  | T_ASSIGNOP | T_EQUALSOP | T_PLUS | T_MINUS | T_MULT | T_DIV | T_MOD
  | T_LT | T_GT | T_LTE | T_GTE | T_NEQ | T_AND | T_OR | T_NOT
  | T_BITAND | T_BITOR | T_BITXOR | T_BITNOT | T_LEFTSHIFT | T_RIGHTSHIFT
  | T_PARENL | T_PARENR | T_BRACEL | T_BRACER | T_BRACKL | T_BRACKR
  | T_COMMA | T_SEMICOLON | T_COLON | T_QUESTION | T_DOT | T_COMMENT
  | T_UNKNOWN | T_EOF | T_INVALID_IDENTIFIER | T_INCREMENT | T_PLUS_ASSIGN
  deriving DecidableEq, Repr

open TokenType

/-- Token record from src/tokenize.cpp: kind, text, 1-based position. -/
structure Token where
  type : TokenType
  value : String
  line : Nat
  column : Nat
  deriving DecidableEq, Repr

/-- C locale isspace over the byte values the C++ code can receive. -/
def cIsSpace (c : Char) : Bool :=
  c = ' ' || c = '\t' || c = '\n' || c = '\x0b' || c = '\x0c' || c = '\r'

/-- C locale isalpha (ASCII letters). -/
def cIsAlpha (c : Char) : Bool :=
  ('A' ≤ c && c ≤ 'Z') || ('a' ≤ c && c ≤ 'z')

/-- C locale isdigit (ASCII digits). -/
def cIsDigit (c : Char) : Bool :=
  '0' ≤ c && c ≤ '9'

/-- C locale isalnum (ASCII letters and digits). -/
def cIsAlnum (c : Char) : Bool :=
  cIsAlpha c || cIsDigit c

/-- The keyword dispatch of the identifier branch of `tokenize`: the
`keywords` set membership test followed by the if/else chain that picks the
token type (true/false produce `T_BOOLLIT`). -/
def keywordToken (acc : String) : Option TokenType :=
  if acc = "true" ∨ acc = "false" then some T_BOOLLIT
  else if acc = "fn" then some T_FUNCTION
  else if acc = "int" then some T_INT
  else if acc = "float" then some T_FLOAT
  else if acc = "string" then some T_STRING
  else if acc = "bool" then some T_BOOL
  else if acc = "return" then some T_RETURN
  else if acc = "if" then some T_IF
  else if acc = "else" then some T_ELSE
  else if acc = "for" then some T_FOR
  else if acc = "while" then some T_WHILE
  else if acc = "break" then some T_BREAK
  else if acc = "continue" then some T_CONTINUE
  else none

/-- Result of an inner scanning loop: accumulated text, unconsumed suffix,
updated column. -/
structure ScanRes where
  acc : String
  rest : List Char
  col : Nat
  deriving Repr

/-- The identifier/keyword inner loop of `tokenize`: a maximal run of
alphanumeric characters, underscore, or bytes at least 128. -/
def scanIdent : List Char → String → Nat → ScanRes
  | [], acc, col => ⟨acc, [], col⟩
  | ch :: rest, acc, col =>
    if cIsAlnum ch || ch = '_' || 128 ≤ ch.toNat then
      scanIdent rest (acc.push ch) (col + 1)
    else ⟨acc, ch :: rest, col⟩

/-- Result of the numeric inner loop: either a normal exit carrying the
accumulated digits, the dot flag, the unconsumed suffix and the column, or
the fatal second-decimal-point abort carrying only the accumulated text. -/
inductive NumRes where
  | ok (acc : String) (dotSeen : Bool) (rest : List Char) (col : Nat)
  | abort (acc : String)
  deriving Repr

/-- The numeric inner loop of `tokenize`: digits with at most one decimal
point; a second decimal point aborts the entire scan. -/
def scanNumber : List Char → String → Bool → Nat → NumRes
  | [], acc, dotSeen, col => NumRes.ok acc dotSeen [] col
  | ch :: rest, acc, dotSeen, col =>
    if cIsDigit ch then scanNumber rest (acc.push ch) dotSeen (col + 1)
    else if ch = '.' then
      if dotSeen then NumRes.abort acc
      else scanNumber rest (acc.push '.') true (col + 1)
    else NumRes.ok acc dotSeen (ch :: rest) col

/-- The invalid-identifier extension loop of `tokenize` (the `123abc` case):
alphanumeric characters or underscore following a numeric run. -/
def scanTail : List Char → String → Nat → ScanRes
  | [], acc, col => ⟨acc, [], col⟩
  | ch :: rest, acc, col =>
    if cIsAlnum ch || ch = '_' then scanTail rest (acc.push ch) (col + 1)
    else ⟨acc, ch :: rest, col⟩

/-- Escape mapping inside string literals: n, t, r map to their control
characters; every other escaped character is passed through. -/
def escChar (e : Char) : Char :=
  if e = 'n' then '\n'
  else if e = 't' then '\t'
  else if e = 'r' then '\r'
  else if e = '\\' then '\\'
  else if e = '"' then '"'
  else e

/-- The string-literal inner loop of `tokenize`: consume up to (not
including) the closing quote, translating backslash escapes; a trailing
backslash at end of input is kept literally. -/
def scanStr : List Char → String → Nat → ScanRes
  | [], acc, col => ⟨acc, [], col⟩
  | ch :: rest, acc, col =>
    if ch = '"' then ⟨acc, ch :: rest, col⟩
    else if ch = '\\' then
      match rest with
      | e :: rest2 => scanStr rest2 (acc.push (escChar e)) (col + 2)
      | [] => scanStr [] (acc.push ch) (col + 1)
    else scanStr rest (acc.push ch) (col + 1)

/-- The line-comment inner loop of `tokenize`: consume to (not including)
the next newline. -/
def scanLine : List Char → String → Nat → ScanRes
  | [], acc, col => ⟨acc, [], col⟩
  | ch :: rest, acc, col =>
    if ch = '\n' then ⟨acc, ch :: rest, col⟩
    else scanLine rest (acc.push ch) (col + 1)

/-- Result of the block-comment inner loop, which also updates the line
counter. -/
structure BlockRes where
  acc : String
  rest : List Char
  line : Nat
  col : Nat
  deriving Repr

/-- The block-comment inner loop of `tokenize`: consume until the closing
star-slash (left unconsumed) or until at most one character remains,
incrementing the line counter and resetting the column at each newline. -/
def scanBlock : List Char → String → Nat → Nat → BlockRes
  | [], acc, line, col => ⟨acc, [], line, col⟩
  | [ch], acc, line, col => ⟨acc, [ch], line, col⟩
  | ch :: d :: rest, acc, line, col =>
    if ch = '*' ∧ d = '/' then ⟨acc, ch :: d :: rest, line, col⟩
    else if ch = '\n' then scanBlock (d :: rest) (acc.push ch) (line + 1) 1
    else scanBlock (d :: rest) (acc.push ch) line (col + 1)

/-- The single-character symbol mapping at the end of the `tokenize` loop. -/
def symType (c : Char) : TokenType :=
  if c = '+' then T_PLUS
  else if c = '-' then T_MINUS
  else if c = '*' then T_MULT
  else if c = '/' then T_DIV
  else if c = '%' then T_MOD
  else if c = '<' then T_LT
  else if c = '>' then T_GT
  else if c = '!' then T_NOT
  else if c = '&' then T_BITAND
  else if c = '|' then T_BITOR
  else if c = '^' then T_BITXOR
  else if c = '~' then T_BITNOT
  else if c = '(' then T_PARENL
  else if c = ')' then T_PARENR
  else if c = '\x7b' then T_BRACEL
  else if c = '\x7d' then T_BRACER
  else if c = '[' then T_BRACKL
  else if c = ']' then T_BRACKR
  else if c = ',' then T_COMMA
  else if c = ';' then T_SEMICOLON
  else if c = ':' then T_COLON
  else if c = '?' then T_QUESTION
  else if c = '.' then T_DOT
  else if c = '=' then T_ASSIGNOP
  else T_UNKNOWN

/-- Literal token selection after a numeric run: float if a decimal point
was seen, integer otherwise. -/
def numTok (dotSeen : Bool) (acc : String) (line col : Nat) : Token :=
  if dotSeen then ⟨T_FLOATLIT, acc, line, col⟩ else ⟨T_INTLIT, acc, line, col⟩

/-- Outcome of one iteration of the `tokenize` while loop: silently consume
whitespace, emit one token and continue, or (the fatal second-decimal-point
path) emit one token and stop the entire scan. -/
inductive StepRes where
  | skip (rest : List Char) (line col : Nat)
  | emit (tok : Token) (rest : List Char) (line col : Nat)
  | halt (tok : Token)
  deriving Repr

/-- The body of the `tokenize` while loop for a current character `c` and
remaining input `cs`, with the branch order of the C++ source: whitespace,
identifier/keyword, number, string, comments, two-character operators,
single-character symbols. -/
def scanTok (c : Char) (cs : List Char) (line col : Nat) : StepRes :=
  if cIsSpace c then
    if c = '\n' then StepRes.skip cs (line + 1) 1
    else StepRes.skip cs line (col + 1)
  else if cIsAlpha c || c = '_' || 128 ≤ c.toNat then
    let r := scanIdent cs (String.push "" c) (col + 1)
    match keywordToken r.acc with
    | some tt => StepRes.emit ⟨tt, r.acc, line, col⟩ r.rest line r.col
    | none => StepRes.emit ⟨T_IDENTIFIER, r.acc, line, col⟩ r.rest line r.col
  else if cIsDigit c then
    match scanNumber cs (String.push "" c) false (col + 1) with
    | NumRes.abort acc => StepRes.halt ⟨T_INVALID_IDENTIFIER, acc, line, col⟩
    | NumRes.ok acc dotSeen rest col2 =>
      match rest with
      | d :: _ =>
        if cIsAlpha d || d = '_' then
          let r2 := scanTail rest acc col2
          StepRes.emit ⟨T_INVALID_IDENTIFIER, r2.acc, line, col⟩ r2.rest line r2.col
        else StepRes.emit (numTok dotSeen acc line col) rest line col2
      | [] => StepRes.emit (numTok dotSeen acc line col) [] line col2
  else if c = '"' then
    let r := scanStr cs "" (col + 1)
    match r.rest with
    | d :: rest2 =>
      if d = '"' then StepRes.emit ⟨T_STRINGLIT, r.acc, line, col⟩ rest2 line (r.col + 1)
      else StepRes.emit ⟨T_STRINGLIT, r.acc, line, col⟩ r.rest line r.col
    | [] => StepRes.emit ⟨T_STRINGLIT, r.acc, line, col⟩ [] line r.col
  else
    match cs with
    | d :: cs2 =>
      if c = '/' ∧ d = '/' then
        let r := scanLine cs2 "" (col + 2)
        StepRes.emit ⟨T_COMMENT, r.acc, line, col⟩ r.rest line r.col
      else if c = '/' ∧ d = '*' then
        let r := scanBlock cs2 "" line (col + 2)
        match r.rest with
        | _ :: _ :: rest3 => StepRes.emit ⟨T_COMMENT, r.acc, r.line, col⟩ rest3 r.line (r.col + 2)
        | _ => StepRes.emit ⟨T_COMMENT, r.acc, r.line, col⟩ r.rest r.line r.col
      else if c = '=' ∧ d = '=' then StepRes.emit ⟨T_EQUALSOP, "==", line, col⟩ cs2 line (col + 2)
      else if c = '+' ∧ d = '+' then StepRes.emit ⟨T_INCREMENT, "++", line, col⟩ cs2 line (col + 2)
      else if c = '+' ∧ d = '=' then StepRes.emit ⟨T_PLUS_ASSIGN, "+=", line, col⟩ cs2 line (col + 2)
      else StepRes.emit ⟨symType c, String.push "" c, line, col⟩ (d :: cs2) line (col + 1)
    | [] => StepRes.emit ⟨symType c, String.push "" c, line, col⟩ [] line (col + 1)

/-- The main scanning loop of `tokenize`, one `scanTok` step per iteration.
The fuel argument only bounds the number of iterations: since every step
consumes at least one character, a fuel of the number of remaining
characters plus one is never exhausted.  On exhausted input the single
end-of-input token is emitted; the halt outcome (second-decimal-point
abort) returns the invalid-identifier token without recursing — and hence
without an end-of-input token — exactly as the early `return tokens` in the
C++ loop. -/
def tokenizeLoop : Nat → List Char → Nat → Nat → List Token
  | _, [], line, col => [⟨T_EOF, "", line, col⟩]
  | 0, _ :: _, _, _ => []
  | fuel + 1, c :: cs, line, col =>
    match scanTok c cs line col with
    | StepRes.skip rest line2 col2 => tokenizeLoop fuel rest line2 col2
    | StepRes.emit tok rest line2 col2 => tok :: tokenizeLoop fuel rest line2 col2
    | StepRes.halt tok => [tok]

/-- tokenize from src/tokenize.cpp: scan the whole source starting at line
1, column 1. -/
def tokenize (s : String) : List Token :=
  tokenizeLoop (s.data.length + 1) s.data 1 1

/-- ParseError enumeration from src/parser.cpp. -/
inductive ParseError where
  | UnexpectedEOF
  | FailedToFindToken
  | ExpectedTypeToken
  | ExpectedIdentifier
  | UnexpectedToken
  | ExpectedFloatLit
  | ExpectedIntLit
  | ExpectedStringLit
  | ExpectedBoolLit
  | ExpectedExpr
  deriving DecidableEq, Repr

open ParseError

/-- ParseException from src/parser.cpp: error kind, offending token,
message. -/
structure ParseException where
  error : ParseError
  token : Token
  message : String
  deriving DecidableEq, Repr

/-- Expression AST from src/parser.cpp: LiteralExpr carries the literal
text and the type string assigned by the parser; IdentExpr carries a
name. -/
inductive Expr where
  | literalExpr (value : String) (ty : String)
  | identExpr (name : String)
  deriving DecidableEq, Repr

/-- VarDeclStmt from src/parser.cpp: declared type, variable name,
optional initializer. -/
structure VarDeclStmt where
  declType : String
  name : String
  init : Option Expr
  deriving DecidableEq, Repr

/-- The synthetic token returned by Parser::current() past the end of the
token vector: a value-initialized Token with kind T_EOF. -/
def staticEofToken : Token := ⟨T_EOF, "", 0, 0⟩

/-- Parser::current(): the head of the remaining tokens, or the synthetic
end-of-input token when the cursor is past the end. -/
def current : List Token → Token
  | [] => staticEofToken
  | t :: _ => t

/-- Parser::isAtEnd(): the current token has kind T_EOF. -/
def isAtEnd (ts : List Token) : Bool :=
  (current ts).type = T_EOF

/-- Parser::advance(): move the cursor forward unless at end. -/
def advance (ts : List Token) : List Token :=
  if isAtEnd ts then ts else ts.tail

/-- Parser::parseExpression: dispatch on the current token's kind, checking
a literal's kind against the declared type; the expression node is built
from the current token, and the cursor is not moved. -/
def parseExpression (expectedType : String) (ts : List Token) : Except ParseException Expr :=
  match (current ts).type with
  | T_INTLIT =>
    if expectedType ≠ "int" then
      Except.error ⟨ExpectedIntLit, current ts, "Expected integer literal"⟩
    else Except.ok (Expr.literalExpr (current ts).value "int")
  | T_FLOATLIT =>
    if expectedType ≠ "float" then
      Except.error ⟨ExpectedFloatLit, current ts, "Expected float literal"⟩
    else Except.ok (Expr.literalExpr (current ts).value "float")
  | T_STRINGLIT =>
    if expectedType ≠ "string" then
      Except.error ⟨ExpectedStringLit, current ts, "Expected string literal"⟩
    else Except.ok (Expr.literalExpr (current ts).value "string")
  | T_BOOLLIT =>
    if expectedType ≠ "bool" then
      Except.error ⟨ExpectedBoolLit, current ts, "Expected boolean literal"⟩
    else Except.ok (Expr.literalExpr (current ts).value "bool")
  | T_IDENTIFIER => Except.ok (Expr.identExpr (current ts).value)
  | _ => Except.error ⟨ExpectedExpr, current ts, "Expected an expression after '='"⟩

/-- Parser::parseVarDecl: consume the type keyword, require an identifier,
optionally parse an initializer after '=', then require a semicolon via
expect (note that parseExpression leaves the cursor on the initializer
token, so the semicolon check after an initializer is performed on that
same token). -/
def parseVarDecl (ts : List Token) : Except ParseException (VarDeclStmt × List Token) :=
  let ty := (current ts).value
  let ts1 := advance ts
  if (current ts1).type = T_IDENTIFIER then
    let nm := (current ts1).value
    let ts2 := advance ts1
    if (current ts2).type = T_ASSIGNOP then
      let ts3 := advance ts2
      match parseExpression ty ts3 with
      | Except.error e => Except.error e
      | Except.ok e =>
        if (current ts3).type = T_SEMICOLON then
          Except.ok (⟨ty, nm, some e⟩, advance ts3)
        else
          Except.error ⟨FailedToFindToken, current ts3, "Expected ';' after variable declaration"⟩
    else
      if (current ts2).type = T_SEMICOLON then
        Except.ok (⟨ty, nm, none⟩, advance ts2)
      else
        Except.error ⟨FailedToFindToken, current ts2, "Expected ';' after variable declaration"⟩
  else
    Except.error ⟨ExpectedIdentifier, current ts1, "Expected variable name after type"⟩

/-- Parser::parseStatement: a statement must start with one of the four
type keywords. -/
def parseStatement (ts : List Token) : Except ParseException (VarDeclStmt × List Token) :=
  if (current ts).type = T_INT ∨ (current ts).type = T_FLOAT ∨
     (current ts).type = T_STRING ∨ (current ts).type = T_BOOL then
    parseVarDecl ts
  else
    Except.error ⟨ExpectedTypeToken, current ts, "Expected a type at start of statement"⟩

/-- The while loop of Parser::parseProgram; the fuel only bounds the number
of iterations and is never exhausted when it starts at the number of tokens
plus one, because every successfully parsed statement consumes at least one
token. -/
def parseProgramLoop : Nat → List Token → Except ParseException (List VarDeclStmt)
  | 0, _ => Except.ok []
  | fuel + 1, ts =>
    if isAtEnd ts then Except.ok []
    else
      match parseStatement ts with
      | Except.error e => Except.error e
      | Except.ok (s, ts') =>
        match parseProgramLoop fuel ts' with
        | Except.error e => Except.error e
        | Except.ok rest => Except.ok (s :: rest)

/-- Parser::parseProgram on a token vector: loop until the current token is
end-of-input, collecting declaration statements; the first error aborts the
whole call. -/
def parseProgram (ts : List Token) : Except ParseException (List VarDeclStmt) :=
  parseProgramLoop (ts.length + 1) ts

/-- Bool-valued pairwise-chain check used to state position monotonicity. -/
def chainOK (p : Token → Token → Bool) : List Token → Bool
  | [] => true
  | [_] => true
  | a :: b :: rest => p a b && chainOK p (b :: rest)

/-- The ordering on token positions asserted by the specification: the next
token is on a strictly greater line, or on the same line at a column not
smaller than the previous token's column. -/
def claimLE (a b : Token) : Bool :=
  decide (a.line < b.line) || (decide (a.line = b.line) && decide (a.column ≤ b.column))

/-- Position ordering relaxed at comment tokens: the pair starting at a
comment token is exempt (a block comment spanning a newline is stamped with
its ending line but starting column). -/
def relaxedLE (a b : Token) : Bool :=
  decide (a.type = T_COMMENT) || claimLE a b

/-- The parse-error kinds that the grammar can actually raise. -/
def allowedKind : ParseError → Bool
  | FailedToFindToken => true
  | ExpectedTypeToken => true
  | ExpectedIdentifier => true
  | ExpectedFloatLit => true
  | ExpectedIntLit => true
  | ExpectedStringLit => true
  | ExpectedBoolLit => true
  | ExpectedExpr => true
  | UnexpectedEOF => false
  | UnexpectedToken => false

/-- C1 (code divergence): on "int x = 42;" the parser does not succeed; the
expression node is built without consuming the literal token, so the
semicolon check runs on the literal itself and raises FailedToFindToken at
the token "42". -/
theorem parse_int_decl_fails :
    parseProgram (tokenize "int x = 42;") =
      Except.error ⟨ParseError.FailedToFindToken, ⟨T_INTLIT, "42", 1, 9⟩,
        "Expected ';' after variable declaration"⟩ := by
  rfl

/-- C2 (code divergence): on "bool flag = 123;" the parser raises
ExpectedIntLit — the kind named after the literal actually seen — not the
ExpectedBoolLit kind named after the declared type. -/
theorem parse_bool_flag_fails_intlit :
    parseProgram (tokenize "bool flag = 123;") =
      Except.error ⟨ParseError.ExpectedIntLit, ⟨T_INTLIT, "123", 1, 13⟩,
        "Expected integer literal"⟩ := by
  rfl

/-- C3 (code divergence): on "int x = y;" the identifier initializer is
accepted by parseExpression without any check, but the cursor is not
advanced past it, so the declaration still fails with FailedToFindToken at
the token "y" instead of succeeding. -/
theorem parse_ident_init_fails :
    parseProgram (tokenize "int x = y;") =
      Except.error ⟨ParseError.FailedToFindToken, ⟨T_IDENTIFIER, "y", 1, 9⟩,
        "Expected ';' after variable declaration"⟩ := by
  rfl

/-- C6 counterexample: tokenizing "123.4.5" produces no token whose text is
"123.4.5" — the abort path pushes the accumulator before the second decimal
point is appended, so the invalid-identifier token carries "123.4". -/
theorem tokenize_dotdot_text_cex :
    (tokenize "123.4.5").all (fun t => decide (t.value ≠ "123.4.5")) = true := by
  rfl

/-- C6 amended: tokenizing "123.4.5" yields exactly one invalid-identifier
token with text "123.4" and no end-of-input token. -/
theorem tokenize_dotdot_amended :
    tokenize "123.4.5" = [⟨T_INVALID_IDENTIFIER, "123.4", 1, 1⟩] := by
  rfl

/-- C10: tokenizing "123abc" yields exactly one invalid-identifier token
with text "123abc" followed by a normal end-of-input token. -/
theorem tokenize_123abc :
    tokenize "123abc" =
      [⟨T_INVALID_IDENTIFIER, "123abc", 1, 1⟩, ⟨T_EOF, "", 1, 7⟩] := by
  rfl

/-- C5 counterexample: tokenizing "1.2.3" returns a sequence containing no
end-of-input token at all (the abort path omits it), refuting that every
sequence is terminated by exactly one end-of-input token. -/
theorem tokenize_abort_no_eof_cex :
    (tokenize "1.2.3").countP (fun t => decide (t.type = T_EOF)) = 0 := by
  rfl

/-- C8 counterexample: on "abcd /*\n*/ x" the block-comment token is
stamped with its ending line but starting column (line 2, column 6), and
the following identifier is at line 2, column 4, so the token positions are
not non-decreasing in the claimed order. -/
theorem tokenize_positions_cex :
    chainOK claimLE (tokenize "abcd /*\n*/ x") = false := by
  rfl

/-- An accepted expression token is one of the four literal kinds or an
identifier; in particular it is never a semicolon. -/
theorem parseExpression_ok_type {ty : String} {ts : List Token} {e : Expr}
    (h : parseExpression ty ts = Except.ok e) :
    (current ts).type = T_INTLIT ∨ (current ts).type = T_FLOATLIT ∨
    (current ts).type = T_STRINGLIT ∨ (current ts).type = T_BOOLLIT ∨
    (current ts).type = T_IDENTIFIER := by
  unfold parseExpression at h
  cases hty : (current ts).type <;> simp_all

/-- A successfully parsed declaration has no initializer: the initializer
path re-checks the semicolon on the literal or identifier token itself and
always raises. -/
theorem parseVarDecl_init_none {ts : List Token} {s : VarDeclStmt} {ts' : List Token}
    (h : parseVarDecl ts = Except.ok (s, ts')) : s.init = none := by
  simp only [parseVarDecl] at h
  split at h
  · split at h
    · split at h
      · exact absurd h (by simp)
      · rename_i e hexp
        split at h
        · rename_i hsem
          rcases parseExpression_ok_type hexp with h5 | h5 | h5 | h5 | h5 <;>
            rw [h5] at hsem <;> exact absurd hsem (by simp)
        · exact absurd h (by simp)
    · split at h
      · simp only [Except.ok.injEq, Prod.mk.injEq] at h
        rw [← h.1]
      · exact absurd h (by simp)
  · exact absurd h (by simp)

/-- A successful parseStatement is a successful parseVarDecl. -/
theorem parseStatement_ok {ts : List Token} {s : VarDeclStmt} {ts' : List Token}
    (h : parseStatement ts = Except.ok (s, ts')) : parseVarDecl ts = Except.ok (s, ts') := by
  unfold parseStatement at h
  split at h
  · exact h
  · exact absurd h (by simp)

/-- Every statement list produced by the parsing loop consists of
declarations without initializers. -/
theorem parseProgramLoop_init_none :
    ∀ (fuel : Nat) (ts : List Token) (stmts : List VarDeclStmt),
    parseProgramLoop fuel ts = Except.ok stmts →
    stmts.all (fun s => s.init.isNone) = true := by
  intro fuel
  induction fuel with
  | zero =>
    intro ts stmts h
    simp only [parseProgramLoop, Except.ok.injEq] at h
    simp [← h]
  | succ fuel ih =>
    intro ts stmts h
    simp only [parseProgramLoop] at h
    split at h
    · simp only [Except.ok.injEq] at h
      simp [← h]
    · split at h
      · exact absurd h (by simp)
      · rename_i s2 ts2 hstmt
        split at h
        · exact absurd h (by simp)
        · rename_i rest hrest
          simp only [Except.ok.injEq] at h
          subst h
          simp only [List.all_cons, Bool.and_eq_true]
          constructor
          · have h6 := parseVarDecl_init_none (parseStatement_ok hstmt)
            simp [h6]
          · exact ih ts2 rest hrest

/-- C4: whenever parse succeeds, every returned declaration statement has an
absent initializer — parseExpression builds the node from the current token
without advancing past it, so any declaration containing an initializer
raises at the semicolon check before the statement is returned. -/
theorem parse_ok_all_init_none (ts : List Token) (stmts : List VarDeclStmt)
    (h : parseProgram ts = Except.ok stmts) :
    stmts.all (fun s => s.init.isNone) = true :=
  parseProgramLoop_init_none (ts.length + 1) ts stmts h

/-- C4 witness: a concrete successful parse, all of whose statements have no
initializer. -/
theorem parse_ok_all_init_none_witness :
    ([⟨"int", "x", none⟩, ⟨"float", "y", none⟩] : List VarDeclStmt).all
      (fun s => s.init.isNone) = true :=
  parse_ok_all_init_none (tokenize "int x; float y;")
    [⟨"int", "x", none⟩, ⟨"float", "y", none⟩] (by rfl)

/-- Every error raised by parseExpression has one of the literal-mismatch
kinds or ExpectedExpr. -/
theorem parseExpression_error_kind {ty : String} {ts : List Token} {ex : ParseException}
    (h : parseExpression ty ts = Except.error ex) : allowedKind ex.error = true := by
  unfold parseExpression at h
  split at h <;>
    first
      | (split at h <;>
          first
            | (simp only [Except.error.injEq] at h
               subst h
               rfl)
            | simp at h)
      | (simp only [Except.error.injEq] at h
         subst h
         rfl)
      | simp at h

/-- Every error raised by parseVarDecl has an allowed kind. -/
theorem parseVarDecl_error_kind {ts : List Token} {ex : ParseException}
    (h : parseVarDecl ts = Except.error ex) : allowedKind ex.error = true := by
  simp only [parseVarDecl] at h
  split at h
  · split at h
    · split at h
      · rename_i e hexp
        simp only [Except.error.injEq] at h
        subst h
        exact parseExpression_error_kind hexp
      · split at h
        · exact absurd h (by simp)
        · simp only [Except.error.injEq] at h
          subst h
          rfl
    · split at h
      · exact absurd h (by simp)
      · simp only [Except.error.injEq] at h
        subst h
        rfl
  · simp only [Except.error.injEq] at h
    subst h
    rfl

/-- Every error raised by parseStatement has an allowed kind. -/
theorem parseStatement_error_kind {ts : List Token} {ex : ParseException}
    (h : parseStatement ts = Except.error ex) : allowedKind ex.error = true := by
  unfold parseStatement at h
  split at h
  · exact parseVarDecl_error_kind h
  · simp only [Except.error.injEq] at h
    subst h
    rfl

/-- Every error raised by the parsing loop has an allowed kind. -/
theorem parseProgramLoop_error_kind :
    ∀ (fuel : Nat) (ts : List Token) (ex : ParseException),
    parseProgramLoop fuel ts = Except.error ex → allowedKind ex.error = true := by
  intro fuel
  induction fuel with
  | zero => intro ts ex h; exact absurd h (by simp [parseProgramLoop])
  | succ fuel ih =>
    intro ts ex h
    simp only [parseProgramLoop] at h
    split at h
    · exact absurd h (by simp)
    · split at h
      · rename_i e hstmt
        simp only [Except.error.injEq] at h
        subst h
        exact parseStatement_error_kind hstmt
      · split at h
        · rename_i e2 hrest
          simp only [Except.error.injEq] at h
          subst h
          exact ih _ _ hrest
        · exact absurd h (by simp)

/-- C9: parse never fails with UnexpectedEOF or UnexpectedToken; every
failure has one of the eight kinds the grammar can raise. -/
theorem parse_error_kinds (ts : List Token) (ex : ParseException)
    (h : parseProgram ts = Except.error ex) :
    ex.error ≠ ParseError.UnexpectedEOF ∧ ex.error ≠ ParseError.UnexpectedToken ∧
    allowedKind ex.error = true := by
  have hk := parseProgramLoop_error_kind (ts.length + 1) ts ex h
  refine ⟨?_, ?_, hk⟩ <;> (intro hbad; rw [hbad] at hk; exact absurd hk (by simp [allowedKind]))

/-- C9 witness: a concrete failing parse whose error kind is among the
allowed ones. -/
theorem parse_error_kinds_witness :
    (ParseError.ExpectedTypeToken ≠ ParseError.UnexpectedEOF ∧
     ParseError.ExpectedTypeToken ≠ ParseError.UnexpectedToken ∧
     allowedKind ParseError.ExpectedTypeToken = true) :=
  parse_error_kinds (tokenize "x = 42;")
    ⟨ParseError.ExpectedTypeToken, ⟨T_IDENTIFIER, "x", 1, 1⟩,
      "Expected a type at start of statement"⟩ (by rfl)

/-- Advancing past a non-end-of-input token drops it. -/
theorem advance_cons {t : Token} {ts : List Token} (h : t.type ≠ T_EOF) :
    advance (t :: ts) = ts := by
  simp [advance, isAtEnd, current, h]

/-- A token that is none of the literal kinds and not an identifier makes
parseExpression raise ExpectedExpr at that token. -/
theorem parseExpression_not_expr {ty : String} {ts : List Token}
    (h : ¬((current ts).type = T_INTLIT ∨ (current ts).type = T_FLOATLIT ∨
           (current ts).type = T_STRINGLIT ∨ (current ts).type = T_BOOLLIT ∨
           (current ts).type = T_IDENTIFIER)) :
    parseExpression ty ts =
      Except.error ⟨ParseError.ExpectedExpr, current ts, "Expected an expression after '='"⟩ := by
  unfold parseExpression
  cases hty : (current ts).type <;> simp_all

/-- C7: the error taxonomy of the grammar — a statement not starting with a
type keyword fails with ExpectedTypeToken; a type keyword not followed by
an identifier fails with ExpectedIdentifier; a declaration whose name is
followed by neither '=' nor ';' fails with FailedToFindToken (and so does
the spec's "int x = 42" example, at the literal token); a token after '='
that is none of the literal kinds or an identifier fails with
ExpectedExpr. -/
theorem parse_error_taxonomy :
    (∀ (t : Token) (rest : List Token),
      t.type ≠ T_EOF →
      ¬(t.type = T_INT ∨ t.type = T_FLOAT ∨ t.type = T_STRING ∨ t.type = T_BOOL) →
      parseProgram (t :: rest) =
        Except.error ⟨ParseError.ExpectedTypeToken, t, "Expected a type at start of statement"⟩)
  ∧ (∀ (ty t : Token) (rest : List Token),
      (ty.type = T_INT ∨ ty.type = T_FLOAT ∨ ty.type = T_STRING ∨ ty.type = T_BOOL) →
      t.type ≠ T_IDENTIFIER →
      parseProgram (ty :: t :: rest) =
        Except.error ⟨ParseError.ExpectedIdentifier, t, "Expected variable name after type"⟩)
  ∧ (∀ (ty nm t : Token) (rest : List Token),
      (ty.type = T_INT ∨ ty.type = T_FLOAT ∨ ty.type = T_STRING ∨ ty.type = T_BOOL) →
      nm.type = T_IDENTIFIER →
      t.type ≠ T_ASSIGNOP → t.type ≠ T_SEMICOLON →
      parseProgram (ty :: nm :: t :: rest) =
        Except.error ⟨ParseError.FailedToFindToken, t, "Expected ';' after variable declaration"⟩)
  ∧ (∀ (ty nm asn t : Token) (rest : List Token),
      (ty.type = T_INT ∨ ty.type = T_FLOAT ∨ ty.type = T_STRING ∨ ty.type = T_BOOL) →
      nm.type = T_IDENTIFIER →
      asn.type = T_ASSIGNOP →
      ¬(t.type = T_INTLIT ∨ t.type = T_FLOATLIT ∨ t.type = T_STRINGLIT ∨
        t.type = T_BOOLLIT ∨ t.type = T_IDENTIFIER) →
      parseProgram (ty :: nm :: asn :: t :: rest) =
        Except.error ⟨ParseError.ExpectedExpr, t, "Expected an expression after '='"⟩)
  ∧ parseProgram (tokenize "int x = 42") =
      Except.error ⟨ParseError.FailedToFindToken, ⟨T_INTLIT, "42", 1, 9⟩,
        "Expected ';' after variable declaration"⟩ := by
  refine ⟨?_, ?_, ?_, ?_, by rfl⟩
  · intro t rest h2 h1
    simp only [parseProgram, List.length_cons, parseProgramLoop]
    rw [if_neg (by simp [isAtEnd, current, h2])]
    simp only [parseStatement, current]
    rw [if_neg h1]
  · intro ty t rest hty ht
    have htyne : ty.type ≠ T_EOF := by rcases hty with h | h | h | h <;> simp [h]
    simp only [parseProgram, List.length_cons, parseProgramLoop]
    rw [if_neg (by simp [isAtEnd, current, htyne])]
    simp only [parseStatement, current]
    rw [if_pos hty]
    simp only [parseVarDecl, advance_cons htyne, current]
    rw [if_neg ht]
  · intro ty nm t rest hty hnm hta hts
    have htyne : ty.type ≠ T_EOF := by rcases hty with h | h | h | h <;> simp [h]
    have hnmne : nm.type ≠ T_EOF := by simp [hnm]
    simp only [parseProgram, List.length_cons, parseProgramLoop]
    rw [if_neg (by simp [isAtEnd, current, htyne])]
    simp only [parseStatement, current]
    rw [if_pos hty]
    simp only [parseVarDecl, advance_cons htyne, current]
    rw [if_pos hnm]
    simp only [advance_cons hnmne, current]
    rw [if_neg hta, if_neg hts]
  · intro ty nm asn t rest hty hnm hasn h4
    have htyne : ty.type ≠ T_EOF := by rcases hty with h | h | h | h <;> simp [h]
    have hnmne : nm.type ≠ T_EOF := by simp [hnm]
    have hasnne : asn.type ≠ T_EOF := by simp [hasn]
    simp only [parseProgram, List.length_cons, parseProgramLoop]
    rw [if_neg (by simp [isAtEnd, current, htyne])]
    simp only [parseStatement, current]
    rw [if_pos hty]
    simp only [parseVarDecl, advance_cons htyne, current]
    rw [if_pos hnm]
    simp only [advance_cons hnmne, current]
    rw [if_pos hasn]
    simp only [advance_cons hasnne, current]
    rw [parseExpression_not_expr (by simpa [current] using h4)]
    simp [current]

/-- C7 witness: each taxonomy case at a concrete token sequence. -/
theorem parse_error_taxonomy_witness :
    (parseProgram [⟨T_SEMICOLON, ";", 1, 1⟩, ⟨T_EOF, "", 1, 2⟩] =
      Except.error ⟨ParseError.ExpectedTypeToken, ⟨T_SEMICOLON, ";", 1, 1⟩,
        "Expected a type at start of statement"⟩) ∧
    (parseProgram [⟨T_INT, "int", 1, 1⟩, ⟨T_ASSIGNOP, "=", 1, 5⟩, ⟨T_EOF, "", 1, 6⟩] =
      Except.error ⟨ParseError.ExpectedIdentifier, ⟨T_ASSIGNOP, "=", 1, 5⟩,
        "Expected variable name after type"⟩) ∧
    (parseProgram [⟨T_INT, "int", 1, 1⟩, ⟨T_IDENTIFIER, "x", 1, 5⟩, ⟨T_EOF, "", 1, 6⟩] =
      Except.error ⟨ParseError.FailedToFindToken, ⟨T_EOF, "", 1, 6⟩,
        "Expected ';' after variable declaration"⟩) ∧
    (parseProgram [⟨T_INT, "int", 1, 1⟩, ⟨T_IDENTIFIER, "x", 1, 5⟩, ⟨T_ASSIGNOP, "=", 1, 7⟩,
        ⟨T_SEMICOLON, ";", 1, 9⟩, ⟨T_EOF, "", 1, 10⟩] =
      Except.error ⟨ParseError.ExpectedExpr, ⟨T_SEMICOLON, ";", 1, 9⟩,
        "Expected an expression after '='"⟩) :=
  ⟨parse_error_taxonomy.1 ⟨T_SEMICOLON, ";", 1, 1⟩ [⟨T_EOF, "", 1, 2⟩]
      (by decide) (by decide),
   parse_error_taxonomy.2.1 ⟨T_INT, "int", 1, 1⟩ ⟨T_ASSIGNOP, "=", 1, 5⟩ [⟨T_EOF, "", 1, 6⟩]
      (Or.inl rfl) (by decide),
   parse_error_taxonomy.2.2.1 ⟨T_INT, "int", 1, 1⟩ ⟨T_IDENTIFIER, "x", 1, 5⟩ ⟨T_EOF, "", 1, 6⟩ []
      (Or.inl rfl) rfl (by decide) (by decide),
   parse_error_taxonomy.2.2.2.1 ⟨T_INT, "int", 1, 1⟩ ⟨T_IDENTIFIER, "x", 1, 5⟩
      ⟨T_ASSIGNOP, "=", 1, 7⟩ ⟨T_SEMICOLON, ";", 1, 9⟩ [⟨T_EOF, "", 1, 10⟩]
      (Or.inl rfl) rfl rfl (by decide)⟩

/-- scanIdent consumes characters only from its input and never decreases
the column. -/
theorem scanIdent_rest_length : ∀ (cs : List Char) (acc : String) (col : Nat),
    (scanIdent cs acc col).rest.length ≤ cs.length := by
  intro cs
  induction cs with
  | nil => intro acc col; simp [scanIdent]
  | cons ch rest ih =>
    intro acc col
    simp only [scanIdent]
    split
    · exact le_trans (ih _ _) (Nat.le_succ _)
    · simp

/-- scanIdent never decreases the column counter. -/
theorem scanIdent_col_le : ∀ (cs : List Char) (acc : String) (col : Nat),
    col ≤ (scanIdent cs acc col).col := by
  intro cs
  induction cs with
  | nil => intro acc col; simp [scanIdent]
  | cons ch rest ih =>
    intro acc col
    simp only [scanIdent]
    split
    · exact le_trans (Nat.le_succ _) (ih _ _)
    · simp

/-- scanTail consumes characters only from its input. -/
theorem scanTail_rest_length : ∀ (cs : List Char) (acc : String) (col : Nat),
    (scanTail cs acc col).rest.length ≤ cs.length := by
  intro cs
  induction cs with
  | nil => intro acc col; simp [scanTail]
  | cons ch rest ih =>
    intro acc col
    simp only [scanTail]
    split
    · exact le_trans (ih _ _) (Nat.le_succ _)
    · simp

/-- scanTail never decreases the column counter. -/
theorem scanTail_col_le : ∀ (cs : List Char) (acc : String) (col : Nat),
    col ≤ (scanTail cs acc col).col := by
  intro cs
  induction cs with
  | nil => intro acc col; simp [scanTail]
  | cons ch rest ih =>
    intro acc col
    simp only [scanTail]
    split
    · exact le_trans (Nat.le_succ _) (ih _ _)
    · simp

/-- scanLine consumes characters only from its input. -/
theorem scanLine_rest_length : ∀ (cs : List Char) (acc : String) (col : Nat),
    (scanLine cs acc col).rest.length ≤ cs.length := by
  intro cs
  induction cs with
  | nil => intro acc col; simp [scanLine]
  | cons ch rest ih =>
    intro acc col
    simp only [scanLine]
    split
    · simp
    · exact le_trans (ih _ _) (Nat.le_succ _)

/-- scanLine never decreases the column counter. -/
theorem scanLine_col_le : ∀ (cs : List Char) (acc : String) (col : Nat),
    col ≤ (scanLine cs acc col).col := by
  intro cs
  induction cs with
  | nil => intro acc col; simp [scanLine]
  | cons ch rest ih =>
    intro acc col
    simp only [scanLine]
    split
    · simp
    · exact le_trans (Nat.le_succ _) (ih _ _)

/-- scanStr consumes characters only from its input. -/
theorem scanStr_rest_length (cs : List Char) (acc : String) (col : Nat) :
    (scanStr cs acc col).rest.length ≤ cs.length := by
  induction cs, acc, col using scanStr.induct with
  | case1 acc col => rw [scanStr.eq_def]
  | case2 rest acc col => rw [scanStr.eq_def]; simp
  | case3 acc col e rest2 h ih => rw [scanStr.eq_def]; simp; omega
  | case4 acc col h ih => rw [scanStr.eq_def]; simp; exact le_trans ih (by simp)
  | case5 ch rest acc col h1 h2 ih => rw [scanStr.eq_def]; simp [h1, h2]; omega

/-- scanStr never decreases the column counter. -/
theorem scanStr_col_le (cs : List Char) (acc : String) (col : Nat) :
    col ≤ (scanStr cs acc col).col := by
  induction cs, acc, col using scanStr.induct with
  | case1 acc col => rw [scanStr.eq_def]
  | case2 rest acc col => rw [scanStr.eq_def]; simp
  | case3 acc col e rest2 h ih => rw [scanStr.eq_def]; simp; omega
  | case4 acc col h ih => rw [scanStr.eq_def]; simp; omega
  | case5 ch rest acc col h1 h2 ih => rw [scanStr.eq_def]; simp [h1, h2]; omega

/-- A normal exit of scanNumber consumed characters only from the input and
did not decrease the column. -/
theorem scanNumber_ok_le : ∀ (cs : List Char) (acc : String) (ds : Bool) (col : Nat)
    {a2 : String} {d2 : Bool} {rest : List Char} {col2 : Nat},
    scanNumber cs acc ds col = NumRes.ok a2 d2 rest col2 →
    rest.length ≤ cs.length ∧ col ≤ col2 := by
  intro cs
  induction cs with
  | nil =>
    intro acc ds col a2 d2 rest col2 h
    simp only [scanNumber, NumRes.ok.injEq] at h
    obtain ⟨-, -, h3, h4⟩ := h
    simp [← h3, ← h4]
  | cons ch cs ih =>
    intro acc ds col a2 d2 rest col2 h
    simp only [scanNumber] at h
    split at h
    · obtain ⟨h1, h2⟩ := ih _ _ _ h
      exact ⟨le_trans h1 (Nat.le_succ _), le_trans (Nat.le_succ _) h2⟩
    · split at h
      · split at h
        · exact absurd h (by simp)
        · obtain ⟨h1, h2⟩ := ih _ _ _ h
          exact ⟨le_trans h1 (Nat.le_succ _), le_trans (Nat.le_succ _) h2⟩
      · simp only [NumRes.ok.injEq] at h
        obtain ⟨-, -, h3, h4⟩ := h
        simp [← h3, ← h4]

/-- Unfolding equation for scanBlock on two or more characters. -/
theorem scanBlock_cons (ch d : Char) (rest : List Char) (acc : String) (line col : Nat) :
    scanBlock (ch :: d :: rest) acc line col =
      if ch = '*' ∧ d = '/' then ⟨acc, ch :: d :: rest, line, col⟩
      else if ch = '\n' then scanBlock (d :: rest) (acc.push ch) (line + 1) 1
      else scanBlock (d :: rest) (acc.push ch) line (col + 1) := rfl

/-- scanBlock consumes characters only from its input. -/
theorem scanBlock_rest_length (cs : List Char) (acc : String) (line col : Nat) :
    (scanBlock cs acc line col).rest.length ≤ cs.length := by
  induction cs, acc, line, col using scanBlock.induct with
  | case1 acc line col => simp [scanBlock]
  | case2 ch acc line col => simp [scanBlock]
  | case3 ch d rest acc line col h => rw [scanBlock_cons, if_pos h]
  | case4 d rest acc line col h ih =>
    rw [scanBlock_cons, if_neg h, if_pos rfl]
    simp only [List.length_cons] at ih ⊢
    omega
  | case5 ch d rest acc line col h1 h2 ih =>
    rw [scanBlock_cons, if_neg h1, if_neg h2]
    simp only [List.length_cons] at ih ⊢
    omega

/-- scanBlock never decreases the line counter; if the line is unchanged the
column did not decrease; and the resulting column is positive when the
starting column is. -/
theorem scanBlock_pos (cs : List Char) (acc : String) (line col : Nat) :
    line ≤ (scanBlock cs acc line col).line ∧
    ((scanBlock cs acc line col).line = line → col ≤ (scanBlock cs acc line col).col) ∧
    (1 ≤ col → 1 ≤ (scanBlock cs acc line col).col) := by
  induction cs, acc, line, col using scanBlock.induct with
  | case1 acc line col => simp [scanBlock]
  | case2 ch acc line col => simp [scanBlock]
  | case3 ch d rest acc line col h => rw [scanBlock_cons, if_pos h]; simp
  | case4 d rest acc line col h ih =>
    rw [scanBlock_cons, if_neg h, if_pos rfl]
    obtain ⟨ih1, ih2, ih3⟩ := ih
    refine ⟨by omega, ?_, fun _ => ih3 (by omega)⟩
    intro hline
    omega
  | case5 ch d rest acc line col h1 h2 ih =>
    rw [scanBlock_cons, if_neg h1, if_neg h2]
    obtain ⟨ih1, ih2, ih3⟩ := ih
    exact ⟨ih1, fun hl => by have := ih2 hl; omega, fun hc => ih3 (by omega)⟩

/-- Lexicographic order on (line, column) positions: strictly later line, or
same line and no smaller column. -/
def lcLE (l c l2 c2 : Nat) : Prop := l < l2 ∨ (l = l2 ∧ c ≤ c2)

theorem lcLE_refl (l c : Nat) : lcLE l c l c := Or.inr ⟨rfl, le_refl c⟩

theorem lcLE_trans {a b c d e f : Nat} (h1 : lcLE a b c d) (h2 : lcLE c d e f) :
    lcLE a b e f := by
  unfold lcLE at h1 h2 ⊢
  omega

/-- The keyword dispatch never yields the end-of-input kind. -/
theorem keywordToken_ne_eof : ∀ (acc : String) (tt : TokenType),
    keywordToken acc = some tt → tt ≠ T_EOF := by
  intro acc tt h hbad
  subst hbad
  unfold keywordToken at h
  by_cases h1 : acc = "true" ∨ acc = "false"
  · rw [if_pos h1] at h; exact TokenType.noConfusion (Option.some.inj h)
  · rw [if_neg h1] at h
    by_cases h2 : acc = "fn"
    · rw [if_pos h2] at h; exact TokenType.noConfusion (Option.some.inj h)
    · rw [if_neg h2] at h
      by_cases h3 : acc = "int"
      · rw [if_pos h3] at h; exact TokenType.noConfusion (Option.some.inj h)
      · rw [if_neg h3] at h
        by_cases h4 : acc = "float"
        · rw [if_pos h4] at h; exact TokenType.noConfusion (Option.some.inj h)
        · rw [if_neg h4] at h
          by_cases h5 : acc = "string"
          · rw [if_pos h5] at h; exact TokenType.noConfusion (Option.some.inj h)
          · rw [if_neg h5] at h
            by_cases h6 : acc = "bool"
            · rw [if_pos h6] at h; exact TokenType.noConfusion (Option.some.inj h)
            · rw [if_neg h6] at h
              by_cases h7 : acc = "return"
              · rw [if_pos h7] at h; exact TokenType.noConfusion (Option.some.inj h)
              · rw [if_neg h7] at h
                by_cases h8 : acc = "if"
                · rw [if_pos h8] at h; exact TokenType.noConfusion (Option.some.inj h)
                · rw [if_neg h8] at h
                  by_cases h9 : acc = "else"
                  · rw [if_pos h9] at h; exact TokenType.noConfusion (Option.some.inj h)
                  · rw [if_neg h9] at h
                    by_cases h10 : acc = "for"
                    · rw [if_pos h10] at h; exact TokenType.noConfusion (Option.some.inj h)
                    · rw [if_neg h10] at h
                      by_cases h11 : acc = "while"
                      · rw [if_pos h11] at h; exact TokenType.noConfusion (Option.some.inj h)
                      · rw [if_neg h11] at h
                        by_cases h12 : acc = "break"
                        · rw [if_pos h12] at h; exact TokenType.noConfusion (Option.some.inj h)
                        · rw [if_neg h12] at h
                          by_cases h13 : acc = "continue"
                          · rw [if_pos h13] at h; exact TokenType.noConfusion (Option.some.inj h)
                          · rw [if_neg h13] at h
                            exact Option.noConfusion h

/-- The single-character symbol mapping never yields the end-of-input
kind. -/
theorem symType_ne_eof (c : Char) : symType c ≠ T_EOF := by
  intro h
  unfold symType at h
  by_cases h1 : c = '+'
  · rw [if_pos h1] at h; exact TokenType.noConfusion h
  · rw [if_neg h1] at h
    by_cases h2 : c = '-'
    · rw [if_pos h2] at h; exact TokenType.noConfusion h
    · rw [if_neg h2] at h
      by_cases h3 : c = '*'
      · rw [if_pos h3] at h; exact TokenType.noConfusion h
      · rw [if_neg h3] at h
        by_cases h4 : c = '/'
        · rw [if_pos h4] at h; exact TokenType.noConfusion h
        · rw [if_neg h4] at h
          by_cases h5 : c = '%'
          · rw [if_pos h5] at h; exact TokenType.noConfusion h
          · rw [if_neg h5] at h
            by_cases h6 : c = '<'
            · rw [if_pos h6] at h; exact TokenType.noConfusion h
            · rw [if_neg h6] at h
              by_cases h7 : c = '>'
              · rw [if_pos h7] at h; exact TokenType.noConfusion h
              · rw [if_neg h7] at h
                by_cases h8 : c = '!'
                · rw [if_pos h8] at h; exact TokenType.noConfusion h
                · rw [if_neg h8] at h
                  by_cases h9 : c = '&'
                  · rw [if_pos h9] at h; exact TokenType.noConfusion h
                  · rw [if_neg h9] at h
                    by_cases h10 : c = '|'
                    · rw [if_pos h10] at h; exact TokenType.noConfusion h
                    · rw [if_neg h10] at h
                      by_cases h11 : c = '^'
                      · rw [if_pos h11] at h; exact TokenType.noConfusion h
                      · rw [if_neg h11] at h
                        by_cases h12 : c = '~'
                        · rw [if_pos h12] at h; exact TokenType.noConfusion h
                        · rw [if_neg h12] at h
                          by_cases h13 : c = '('
                          · rw [if_pos h13] at h; exact TokenType.noConfusion h
                          · rw [if_neg h13] at h
                            by_cases h14 : c = ')'
                            · rw [if_pos h14] at h; exact TokenType.noConfusion h
                            · rw [if_neg h14] at h
                              by_cases h15 : c = '{'
                              · rw [if_pos h15] at h; exact TokenType.noConfusion h
                              · rw [if_neg h15] at h
                                by_cases h16 : c = '}'
                                · rw [if_pos h16] at h; exact TokenType.noConfusion h
                                · rw [if_neg h16] at h
                                  by_cases h17 : c = '['
                                  · rw [if_pos h17] at h; exact TokenType.noConfusion h
                                  · rw [if_neg h17] at h
                                    by_cases h18 : c = ']'
                                    · rw [if_pos h18] at h; exact TokenType.noConfusion h
                                    · rw [if_neg h18] at h
                                      by_cases h19 : c = ','
                                      · rw [if_pos h19] at h; exact TokenType.noConfusion h
                                      · rw [if_neg h19] at h
                                        by_cases h20 : c = ';'
                                        · rw [if_pos h20] at h; exact TokenType.noConfusion h
                                        · rw [if_neg h20] at h
                                          by_cases h21 : c = ':'
                                          · rw [if_pos h21] at h; exact TokenType.noConfusion h
                                          · rw [if_neg h21] at h
                                            by_cases h22 : c = '?'
                                            · rw [if_pos h22] at h; exact TokenType.noConfusion h
                                            · rw [if_neg h22] at h
                                              by_cases h23 : c = '.'
                                              · rw [if_pos h23] at h; exact TokenType.noConfusion h
                                              · rw [if_neg h23] at h
                                                by_cases h24 : c = '='
                                                · rw [if_pos h24] at h; exact TokenType.noConfusion h
                                                · rw [if_neg h24] at h
                                                  exact TokenType.noConfusion h

/-- The numeric-literal token is an integer or float literal positioned at
the given line and column. -/
theorem numTok_fields (ds : Bool) (acc : String) (line col : Nat) :
    (numTok ds acc line col).type ≠ T_EOF ∧
    (numTok ds acc line col).line = line ∧ (numTok ds acc line col).column = col := by
  cases ds <;> simp [numTok]

/-- Facts established by one loop step: the unconsumed suffix did not grow;
an emitted token is never the end-of-input token and sits at or after the
entry position; the continuation position dominates the emitted token's
position except for comment tokens (a multi-line block comment is stamped
with its ending line but starting column); counters stay positive; the halt
outcome carries the invalid-identifier token. -/
def stepOK (cs : List Char) (line col : Nat) : StepRes → Prop
  | StepRes.skip rest line2 col2 =>
      rest.length ≤ cs.length ∧ lcLE line col line2 col2 ∧
      (1 ≤ line → 1 ≤ line2) ∧ 1 ≤ col2
  | StepRes.emit tok rest line2 col2 =>
      rest.length ≤ cs.length ∧ tok.type ≠ T_EOF ∧
      lcLE line col tok.line tok.column ∧
      (tok.type = T_COMMENT ∨ (tok.line = line2 ∧ tok.column ≤ col2)) ∧
      (1 ≤ line → 1 ≤ line2) ∧ (1 ≤ col → 1 ≤ col2) ∧
      (1 ≤ line → 1 ≤ tok.line) ∧ (1 ≤ col → 1 ≤ tok.column)
  | StepRes.halt tok =>
      tok.type = T_INVALID_IDENTIFIER ∧ lcLE line col tok.line tok.column ∧
      (1 ≤ line → 1 ≤ tok.line) ∧ (1 ≤ col → 1 ≤ tok.column)

/-- Every loop step satisfies the step invariant. -/
theorem scanTok_ok (c : Char) (cs : List Char) (line col : Nat) :
    stepOK cs line col (scanTok c cs line col) := by
  simp only [scanTok]
  split
  · -- whitespace
    split
    · exact ⟨le_refl _, Or.inl (Nat.lt_succ_self _), fun h => le_trans h (Nat.le_succ _), le_refl 1⟩
    · exact ⟨le_refl _, Or.inr ⟨rfl, Nat.le_succ _⟩, fun h => h, by omega⟩
  · split
    · -- identifier or keyword
      split
      · rename_i tt hk
        refine ⟨scanIdent_rest_length _ _ _, keywordToken_ne_eof _ _ hk, lcLE_refl _ _,
          Or.inr ⟨rfl, le_trans (Nat.le_succ _) (scanIdent_col_le _ _ _)⟩,
          fun h => h, fun h => ?_, fun h => h, fun h => h⟩
        have := scanIdent_col_le cs (String.push "" c) (col + 1)
        omega
      · refine ⟨scanIdent_rest_length _ _ _, by simp, lcLE_refl _ _,
          Or.inr ⟨rfl, le_trans (Nat.le_succ _) (scanIdent_col_le _ _ _)⟩,
          fun h => h, fun h => ?_, fun h => h, fun h => h⟩
        have := scanIdent_col_le cs (String.push "" c) (col + 1)
        omega
    · split
      · -- number
        split
        · -- abort
          exact ⟨rfl, lcLE_refl _ _, fun h => h, fun h => h⟩
        · -- normal numeric exit
          rename_i acc dotSeen rest col2 hn
          split
          · rename_i d drest
            split
            · -- extended into an invalid identifier
              have hnle := scanNumber_ok_le cs (String.push "" c) false (col + 1) hn
              have htl := scanTail_rest_length (d :: drest) acc col2
              have htc := scanTail_col_le (d :: drest) acc col2
              refine ⟨le_trans htl hnle.1, by simp, lcLE_refl _ _,
                Or.inr ⟨rfl, ?_⟩, fun h => h, fun h => ?_, fun h => h, fun h => h⟩
              · first | (dsimp only; omega) | omega
              · first | (dsimp only; omega) | omega
            · -- plain integer or float literal
              have hnle := scanNumber_ok_le cs (String.push "" c) false (col + 1) hn
              obtain ⟨hne, hli, hco⟩ := numTok_fields dotSeen acc line col
              refine ⟨hnle.1, hne, ?_, Or.inr ⟨?_, ?_⟩, fun h => h, fun h => ?_, fun h => ?_, fun h => ?_⟩
              · rw [hli, hco]; exact lcLE_refl _ _
              · rw [hli]
              · rw [hco]; omega
              · omega
              · rw [hli]; exact h
              · rw [hco]; exact h
          · -- numeric run ended at end of input
            rename_i hrest
            have hnle := scanNumber_ok_le cs (String.push "" c) false (col + 1) hn
            obtain ⟨hne, hli, hco⟩ := numTok_fields dotSeen acc line col
            refine ⟨by simp, hne, ?_, Or.inr ⟨?_, ?_⟩, fun h => h, fun h => ?_, fun h => ?_, fun h => ?_⟩
            · rw [hli, hco]; exact lcLE_refl _ _
            · rw [hli]
            · rw [hco]; omega
            · omega
            · rw [hli]; exact h
            · rw [hco]; exact h
      · split
        · -- string literal
          have hsl := scanStr_rest_length cs "" (col + 1)
          have hsc := scanStr_col_le cs "" (col + 1)
          split
          · rename_i d rest2 hr
            rw [hr] at hsl
            split
            · exact ⟨by simpa using Nat.le_of_succ_le hsl, by simp, lcLE_refl _ _,
                Or.inr ⟨rfl, by first | (dsimp only; omega) | omega⟩, fun h => h, fun h => by first | (dsimp only; omega) | omega, fun h => h, fun h => h⟩
            · exact ⟨by rw [hr]; exact hsl, by simp, lcLE_refl _ _,
                Or.inr ⟨rfl, by first | (dsimp only; omega) | omega⟩, fun h => h, fun h => by first | (dsimp only; omega) | omega, fun h => h, fun h => h⟩
          · exact ⟨by simp, by simp, lcLE_refl _ _,
              Or.inr ⟨rfl, by first | (dsimp only; omega) | omega⟩, fun h => h, fun h => by first | (dsimp only; omega) | omega, fun h => h, fun h => h⟩
        · -- comments, operators, symbols
          split
          · rename_i d cs2
            split
            · -- line comment
              have hll := scanLine_rest_length cs2 "" (col + 2)
              have hlc := scanLine_col_le cs2 "" (col + 2)
              exact ⟨le_trans hll (Nat.le_succ _), by simp, lcLE_refl _ _,
                Or.inl rfl, fun h => h, fun h => by first | (dsimp only; omega) | omega, fun h => h, fun h => h⟩
            · split
              · -- block comment
                have hbl := scanBlock_rest_length cs2 "" line (col + 2)
                have hbp := scanBlock_pos cs2 "" line (col + 2)
                have hlc : lcLE line col (scanBlock cs2 "" line (col + 2)).line col := by
                  rcases Nat.eq_or_lt_of_le hbp.1 with he | hl
                  · exact Or.inr ⟨he, le_refl _⟩
                  · exact Or.inl hl
                split
                · rename_i x y rest3 hr
                  rw [hr] at hbl
                  refine ⟨?_, by simp, hlc, Or.inl rfl,
                    fun h => le_trans h hbp.1, fun h => by first | (dsimp only; omega) | omega, fun h => le_trans h hbp.1, fun h => h⟩
                  simp only [List.length_cons] at hbl ⊢
                  omega
                · refine ⟨le_trans hbl (Nat.le_succ _), by simp, hlc, Or.inl rfl,
                    fun h => le_trans h hbp.1, fun h => hbp.2.2 (by omega), fun h => le_trans h hbp.1,
                    fun h => h⟩
              · split
                · -- "=="
                  exact ⟨Nat.le_succ _, by simp, lcLE_refl _ _,
                    Or.inr ⟨rfl, by first | (dsimp only; omega) | omega⟩, fun h => h, fun h => by first | (dsimp only; omega) | omega, fun h => h, fun h => h⟩
                · split
                  · -- "++"
                    exact ⟨Nat.le_succ _, by simp, lcLE_refl _ _,
                      Or.inr ⟨rfl, by first | (dsimp only; omega) | omega⟩, fun h => h, fun h => by first | (dsimp only; omega) | omega, fun h => h, fun h => h⟩
                  · split
                    · -- "+="
                      exact ⟨Nat.le_succ _, by simp, lcLE_refl _ _,
                        Or.inr ⟨rfl, by first | (dsimp only; omega) | omega⟩, fun h => h, fun h => by first | (dsimp only; omega) | omega, fun h => h, fun h => h⟩
                    · -- single-character symbol
                      exact ⟨le_refl _, symType_ne_eof c, lcLE_refl _ _,
                        Or.inr ⟨rfl, Nat.le_succ _⟩, fun h => h, fun h => by first | (dsimp only; omega) | omega, fun h => h, fun h => h⟩
          · -- single-character symbol at end of input
            exact ⟨by simp, symType_ne_eof c, lcLE_refl _ _,
              Or.inr ⟨rfl, Nat.le_succ _⟩, fun h => h, fun h => by first | (dsimp only; omega) | omega, fun h => h, fun h => h⟩

/-- Unfolding equation of the scanning loop at a non-empty input with
non-zero fuel. -/
theorem tokenizeLoop_cons (fuel : Nat) (c : Char) (cs : List Char) (line col : Nat) :
    tokenizeLoop (fuel + 1) (c :: cs) line col =
      match scanTok c cs line col with
      | StepRes.skip rest line2 col2 => tokenizeLoop fuel rest line2 col2
      | StepRes.emit tok rest line2 col2 => tok :: tokenizeLoop fuel rest line2 col2
      | StepRes.halt tok => [tok] := rfl

/-- A default token used only to make getLastD total in statements. -/
def unknownTok : Token := ⟨T_UNKNOWN, "", 0, 0⟩

/-- Shape invariant of a token sequence produced by the scanning loop: it is
non-empty, no token before the last has the end-of-input kind, and the last
token is the end-of-input token or (on the abort path) an
invalid-identifier token. -/
def sealedBy (l : List Token) : Prop :=
  l ≠ [] ∧ (∀ t ∈ l.dropLast, t.type ≠ T_EOF) ∧
  (((l.getLastD unknownTok).type = T_EOF) ∨
   ((l.getLastD unknownTok).type = T_INVALID_IDENTIFIER))

/-- Prepending a non-end-of-input token preserves the shape invariant. -/
theorem sealedBy_cons {t : Token} {l : List Token} (ht : t.type ≠ T_EOF) (hl : sealedBy l) :
    sealedBy (t :: l) := by
  obtain ⟨hne, hdrop, hlast⟩ := hl
  cases l with
  | nil => exact absurd rfl hne
  | cons a l2 =>
    refine ⟨by simp, ?_, ?_⟩
    · intro u hu
      rw [List.dropLast_cons₂] at hu
      rcases List.mem_cons.mp hu with hu | hu
      · subst hu; exact ht
      · exact hdrop u hu
    · simpa [List.getLastD_cons] using hlast

/-- Every run of the scanning loop with sufficient fuel produces a sealed
sequence: non-empty, interior tokens are not end-of-input, and the final
token is end-of-input or invalid-identifier. -/
theorem tokenizeLoop_sealed : ∀ (fuel : Nat) (cs : List Char) (line col : Nat),
    cs.length ≤ fuel → sealedBy (tokenizeLoop fuel cs line col) := by
  intro fuel
  induction fuel with
  | zero =>
    intro cs line col h
    have hnil : cs = [] := List.eq_nil_of_length_eq_zero (Nat.le_zero.mp h)
    subst hnil
    exact ⟨by simp [tokenizeLoop], by simp [tokenizeLoop], by simp [tokenizeLoop]⟩
  | succ fuel ih =>
    intro cs line col h
    cases cs with
    | nil => exact ⟨by simp [tokenizeLoop], by simp [tokenizeLoop], by simp [tokenizeLoop]⟩
    | cons c cs =>
      rw [tokenizeLoop_cons]
      have hOK := scanTok_ok c cs line col
      cases hstep : scanTok c cs line col with
      | skip rest line2 col2 =>
        rw [hstep] at hOK
        have hlen : rest.length ≤ fuel := by
          have h1 := hOK.1
          simp only [List.length_cons] at h
          omega
        exact ih rest line2 col2 hlen
      | emit tok rest line2 col2 =>
        rw [hstep] at hOK
        have hlen : rest.length ≤ fuel := by
          have h1 := hOK.1
          simp only [List.length_cons] at h
          omega
        exact sealedBy_cons hOK.2.1 (ih rest line2 col2 hlen)
      | halt tok =>
        rw [hstep] at hOK
        refine ⟨by simp, by simp, Or.inr ?_⟩
        simpa using hOK.1

/-- C5 amended: every token sequence returned by tokenize is non-empty,
contains no end-of-input token outside the final position (hence at most
one in total), and ends with the end-of-input token or — exactly on the
second-decimal-point abort path — an invalid-identifier token. -/
theorem tokenize_eof_amended (s : String) :
    (tokenize s).isEmpty = false ∧
    (tokenize s).dropLast.countP (fun t => decide (t.type = T_EOF)) = 0 ∧
    (((tokenize s).getLastD unknownTok).type = T_EOF ∨
     ((tokenize s).getLastD unknownTok).type = T_INVALID_IDENTIFIER) := by
  obtain ⟨h1, h2, h3⟩ := tokenizeLoop_sealed (s.data.length + 1) s.data 1 1 (Nat.le_succ _)
  refine ⟨?_, ?_, h3⟩
  · cases hn : tokenize s with
    | nil => exact absurd hn h1
    | cons a l => rfl
  · rw [List.countP_eq_zero]
    intro a ha
    simpa using h2 a ha

/-- Prepending preserves the pairwise chain when the new head is related to
the old head. -/
theorem chainOK_cons {p : Token → Token → Bool} {a : Token} {l : List Token}
    (h1 : ∀ t, l.head? = some t → p a t = true) (h2 : chainOK p l = true) :
    chainOK p (a :: l) = true := by
  cases l with
  | nil => rfl
  | cons b l2 =>
    have hr : chainOK p (a :: b :: l2) = (p a b && chainOK p (b :: l2)) := rfl
    rw [hr, h1 b rfl, h2]
    rfl

/-- The claimed Boolean position order follows from the lexicographic
order on the positions. -/
theorem claimLE_of_lcLE {a b : Token} (h : lcLE a.line a.column b.line b.column) :
    claimLE a b = true := by
  unfold claimLE
  rcases h with h | ⟨h1, h2⟩
  · simp [h]
  · simp [h1, h2]

/-- Chain invariant of the position-monotonicity proof: the sequence is
pairwise ordered except immediately after comment tokens, all positions are
1-based, and the first token sits at or after the entry position. -/
def chainInv (line col : Nat) (l : List Token) : Prop :=
  chainOK relaxedLE l = true ∧
  (∀ t ∈ l, 1 ≤ t.line ∧ 1 ≤ t.column) ∧
  (∀ t, l.head? = some t → lcLE line col t.line t.column)

/-- A singleton sequence satisfies the chain invariant. -/
theorem chainInv_single {line col : Nat} {t : Token} (h1 : 1 ≤ t.line) (h2 : 1 ≤ t.column)
    (h3 : lcLE line col t.line t.column) : chainInv line col [t] := by
  refine ⟨rfl, ?_, ?_⟩
  · intro u hu
    simp only [List.mem_singleton] at hu
    subst hu
    exact ⟨h1, h2⟩
  · intro u hu
    simp only [List.head?_cons, Option.some.injEq] at hu
    subst hu
    exact h3

/-- Every run of the scanning loop from positive line and column counters
satisfies the chain invariant. -/
theorem tokenizeLoop_chain : ∀ (fuel : Nat) (cs : List Char) (line col : Nat),
    1 ≤ line → 1 ≤ col → chainInv line col (tokenizeLoop fuel cs line col) := by
  intro fuel
  induction fuel with
  | zero =>
    intro cs line col hl hc
    cases cs with
    | nil => exact chainInv_single hl hc (lcLE_refl _ _)
    | cons c cs =>
      have hempty : chainInv line col ([] : List Token) := ⟨rfl, by simp, by simp⟩
      exact hempty
  | succ fuel ih =>
    intro cs line col hl hc
    cases cs with
    | nil => exact chainInv_single hl hc (lcLE_refl _ _)
    | cons c cs =>
      rw [tokenizeLoop_cons]
      have hOK := scanTok_ok c cs line col
      cases hstep : scanTok c cs line col with
      | skip rest line2 col2 =>
        rw [hstep] at hOK
        obtain ⟨-, hlc, hl2, hc2⟩ := hOK
        obtain ⟨ih1, ih2, ih3⟩ := ih rest line2 col2 (hl2 hl) hc2
        exact ⟨ih1, ih2, fun t ht => lcLE_trans hlc (ih3 t ht)⟩
      | emit tok rest line2 col2 =>
        rw [hstep] at hOK
        obtain ⟨-, -, hpos, hlink, hl2, hc2, htl, htc⟩ := hOK
        obtain ⟨ih1, ih2, ih3⟩ := ih rest line2 col2 (hl2 hl) (hc2 hc)
        refine ⟨?_, ?_, ?_⟩
        · refine chainOK_cons (fun t ht => ?_) ih1
          unfold relaxedLE
          rcases hlink with hcom | ⟨heq, hle⟩
          · simp [hcom]
          · have : lcLE tok.line tok.column t.line t.column :=
              lcLE_trans (Or.inr ⟨heq, hle⟩) (ih3 t ht)
            rw [claimLE_of_lcLE this]
            simp
        · intro t ht
          rcases List.mem_cons.mp ht with ht | ht
          · subst ht; exact ⟨htl hl, htc hc⟩
          · exact ih2 t ht
        · intro t ht
          simp only [List.head?_cons, Option.some.injEq] at ht
          subst ht
          exact hpos
      | halt tok =>
        rw [hstep] at hOK
        obtain ⟨-, hpos, htl, htc⟩ := hOK
        exact chainInv_single (htl hl) (htc hc) hpos

/-- C8 amended: all token positions produced by tokenize are 1-based, and
consecutive positions are non-decreasing (strictly greater line, or same
line and no smaller column) for every pair whose first token is not a
comment token — a block comment spanning a newline is stamped with its
ending line but starting column, so only the pair starting at such a
comment token can decrease. -/
theorem tokenize_positions_amended (s : String) :
    (tokenize s).all (fun t => decide (1 ≤ t.line) && decide (1 ≤ t.column)) = true ∧
    chainOK relaxedLE (tokenize s) = true := by
  obtain ⟨h1, h2, h3⟩ := tokenizeLoop_chain (s.data.length + 1) s.data 1 1 (le_refl 1) (le_refl 1)
  refine ⟨?_, h1⟩
  rw [List.all_eq_true]
  intro t ht
  have hp := h2 t ht
  simp [hp.1, hp.2]
